import Mathlib

/-!
Verification development for the MZGF blocked gzip container codec
(`src/MZGFile.cpp`, `src/MZGFile.h`): a shallow embedding of the byte
packer, the writer pipeline (`MZGFileWriter::deflate` and its helpers)
and the reader (`MZGFileReader::read`, `vtell`, `useek`, `_read_header`,
`_read_eof`), together with theorems settling the specification claims.

Bytes are modelled as `Nat` values; machine-integer truncation is made
explicit with `% 2 ^ w` exactly where the C code narrows a value
(`uint8_t` array cells, `uint16_t`/`uint32_t`/`uint64_t` casts).  The
external collaborators (the zlib DEFLATE/INFLATE engine and CRC32) are
parameters of the model, as the specification declares them out of
scope.
-/

namespace MZGF

/-- Byte values `0 ≤ b < 256`; stores into `uint8_t` truncate with `% 256`. -/
abbrev Byte := Nat

/-- MZGF_BLOCK_SIZE from `MZGFile.h`: size of uncompressed blocks (0xff00). -/
def MZGF_BLOCK_SIZE : Nat := 0xff00

/-- MZGF_VERSION from `MZGFile.h`. -/
def MZGF_VERSION : Nat := 1

/-- Error code `MZGF_NOT_GZIP` (0x3). -/
def MZGF_NOT_GZIP : Int := 3

/-- Error code `MZGF_NOT_MZGZIP` (0x4). -/
def MZGF_NOT_MZGZIP : Int := 4

/-- Error code `MZGF_ERR_HEADER` (0x5). -/
def MZGF_ERR_HEADER : Int := 5

/-- Error code `MZGF_BAD_FORMAT` (0x6). -/
def MZGF_BAD_FORMAT : Int := 6

/-- Error code `MZGF_BAD_VERSION` (0x7). -/
def MZGF_BAD_VERSION : Int := 7

/-- GZIP_OS for the Linux build of this repository (`#define GZIP_OS 3`). -/
def GZIP_OS : Nat := 3

/-! ## Byte packer (`MZGFile.cpp` lines 148-200)

`packIntN(buffer, value)` stores `value` little-endian into `N/8`
consecutive `uint8_t` cells; each store truncates with `% 256`.
`unpackIntN(buffer)` reads the bytes back.  Reading a cell of the
`uint8_t` buffer yields a value `< 256`, modelled by `byteAt`. -/

/-- Reads cell `i` of a `uint8_t` buffer: the stored value is `< 256`. -/
def byteAt (buffer : List Nat) (i : Nat) : Nat := buffer.getD i 0 % 256

/-- `packInt16`: two little-endian byte stores `value` and `value >> 8`. -/
def packInt16 (value : Nat) : List Byte :=
  [value % 256, (value >>> 8) % 256]

/-- `packInt32`: four little-endian byte stores of `value >> 0,8,16,24`. -/
def packInt32 (value : Nat) : List Byte :=
  [value % 256, (value >>> 8) % 256, (value >>> 16) % 256, (value >>> 24) % 256]

/-- `packInt64`: eight little-endian byte stores of `value >> 0,…,56`. -/
def packInt64 (value : Nat) : List Byte :=
  [value % 256, (value >>> 8) % 256, (value >>> 16) % 256, (value >>> 24) % 256,
   (value >>> 32) % 256, (value >>> 40) % 256, (value >>> 48) % 256, (value >>> 56) % 256]

/-- `unpackInt16`: `buffer[0] | buffer[1] << 8` (returned as C `int`). -/
def unpackInt16 (buffer : List Byte) : Nat :=
  byteAt buffer 0 ||| byteAt buffer 1 <<< 8

/-- `unpackInt32` accumulates into a `uint32_t`, so every `|=` step
truncates with `% 2 ^ 32`; note the source reads FIVE bytes, the last
one shifted by 32 so that the truncation discards it. -/
def unpackInt32 (buffer : List Byte) : Nat :=
  ((((byteAt buffer 0 ||| byteAt buffer 1 <<< 8) % 2 ^ 32
      ||| byteAt buffer 2 <<< 16) % 2 ^ 32
      ||| byteAt buffer 3 <<< 24) % 2 ^ 32
      ||| byteAt buffer 4 <<< 32) % 2 ^ 32

/-- `unpackInt64` accumulates eight little-endian bytes into a
`uint64_t`; with byte operands `< 256` no `|=` step can reach `2 ^ 64`,
so the `uint64_t` arithmetic never truncates. -/
def unpackInt64 (buffer : List Byte) : Nat :=
  byteAt buffer 0 ||| byteAt buffer 1 <<< 8 ||| byteAt buffer 2 <<< 16 |||
    byteAt buffer 3 <<< 24 ||| byteAt buffer 4 <<< 32 ||| byteAt buffer 5 <<< 40 |||
    byteAt buffer 6 <<< 48 ||| byteAt buffer 7 <<< 56

/-! ## Writer model (`MZGFileWriter`, `MZGFile.cpp` lines 202-440)

The zlib DEFLATE engine and CRC32 are external collaborators; they are
parameters of the model (`DeflateEnv`).  The destination `FILE*` is
modelled by an output byte list plus a sink oracle saying whether the
`k`-th `fwrite` call succeeds (a failed call is a short write or stream
error).  `errno || -1` in C is a *logical* or: it evaluates to `1`
whenever a write fails, so failing operations return `1` here. -/

/-- One block index entry (`bindex_t`): `uint64_t zoffset, uoffset`. -/
structure Bindex where
  zoffset : Nat
  uoffset : Nat
deriving DecidableEq

/-- Flush mode passed to the DEFLATE engine (`Z_FULL_FLUSH`/`Z_FINISH`). -/
inductive Flush where
  | full
  | finish
deriving DecidableEq

/-- The external DEFLATE engine and CRC32 collaborator.  `dstep es input
flushMode` consumes the whole input buffer and yields the compressed
bytes produced (the C `do { deflate(); fwrite() } while (avail_out == 0)`
loop writes exactly this output, in pieces of at most
`MZGF_BLOCK_SIZE`).  `crc0` is `crc32(0, NULL, 0)` and `crcUpd c buf`
is `crc32(c, buf, len)`. -/
structure DeflateEnv (σ : Type) where
  dinit : σ
  dstep : σ → List Byte → Flush → List Byte × σ
  crc0 : Nat
  crcUpd : Nat → List Byte → Nat

/-- Destination-file model: whether the `k`-th `fwrite` succeeds. -/
structure Sink where
  ok : Nat → Bool

/-- A destination that accepts every write (the normal case). -/
def allOk : Sink := ⟨fun _ => true⟩

/-- Writer state: the `MZGFileWriter` data members that `deflate` and
its helpers touch, plus the bytes written to `dst` (`out`) and the
count of `fwrite` calls so far (`wcount`, consulted by the sink). -/
structure WState where
  mtime : Nat
  uoffset : Nat
  usize : Nat
  ucrc32 : Nat
  zoffset : Nat
  bindex : List Bindex
  bindexOffset : Nat
  out : List Byte
  wcount : Nat
  error : Option String

/-- One `fwrite` to `dst`: consults the sink oracle; on success the
bytes are appended to the output. -/
def fwriteW (snk : Sink) (s : WState) (bytes : List Byte) : Bool × WState :=
  let okb := snk.ok s.wcount
  (okb, { s with wcount := s.wcount + 1,
                 out := if okb then s.out ++ bytes else s.out })

/-- The 12 fixed gzip header bytes (`gzheader`) with MTIME and XLEN
filled in by `packInt32`/`packInt16` (`_write_header` lines 274-276):
ID1 ID2 CM FLG MTIME(4) XFL OS XLEN(2).  `m_mtime` is a `time_t`
narrowed to `uint32_t`, `extralen` an `int` narrowed to `uint16_t`. -/
def headerBytes (mtime extralen : Nat) : List Byte :=
  [0x1f, 0x8b, 8, 0x04] ++ packInt32 (mtime % 2 ^ 32) ++ [0, GZIP_OS]
    ++ packInt16 (extralen % 2 ^ 16)

/-- `MZGFileWriter::_write_header` (lines 271-291): writes the 12-byte
header, then the extra field if nonempty.  A failed `fwrite` only sets
`m_error`; the function still advances `m_zoffset` and falls through to
`return 0` — it NEVER returns a nonzero status. -/
def writeHeader (snk : Sink) (extra : List Byte) (s : WState) : Int × WState :=
  let w1 := fwriteW snk s (headerBytes s.mtime extra.length)
  let s1 := if w1.1 then w1.2 else { w1.2 with error := some "error writing header" }
  let s2 := { s1 with zoffset := s1.zoffset + 12 }
  if extra.length ≠ 0 then
    let w2 := fwriteW snk s2 extra
    let s3 := if w2.1 then w2.2 else { w2.2 with error := some "error writing header" }
    (0, { s3 with zoffset := s3.zoffset + extra.length })
  else
    (0, s2)

/-- `MZGFileWriter::_flush` (lines 296-341): accounts the uncompressed
bytes into `m_usize`/`m_ucrc32`, picks `Z_FINISH` for a short (final)
block and `Z_FULL_FLUSH` otherwise, runs the DEFLATE engine and writes
its output, advancing `m_zoffset`.  A failed write returns `errno || -1`,
i.e. `1`. -/
def flushW (env : DeflateEnv σ) (snk : Sink) (chunk : List Byte) (es : σ)
    (s : WState) : Int × σ × WState :=
  let s0 := { s with usize := s.usize + chunk.length,
                     ucrc32 := env.crcUpd s.ucrc32 chunk % 2 ^ 32 }
  let fl := if chunk.length < MZGF_BLOCK_SIZE then Flush.finish else Flush.full
  let d := env.dstep es chunk fl
  let w := fwriteW snk s0 d.1
  if w.1 then (0, d.2, { w.2 with zoffset := w.2.zoffset + d.1.length })
  else (1, d.2, { w.2 with error := some "error writing block" })

/-- `MZGFileWriter::_write_empty` (lines 346-361): writes the 2-byte
empty DEFLATE stored block `0x03 0x00` and clears `m_usize`/`m_ucrc32`. -/
def writeEmpty (env : DeflateEnv σ) (snk : Sink) (s : WState) : Int × WState :=
  let (okb, s) := fwriteW snk s [0x03, 0x00]
  if okb then
    (0, { s with zoffset := s.zoffset + 2, usize := 0, ucrc32 := env.crc0 })
  else (1, { s with error := some "error writing bindex" })

/-- `MZGFileWriter::_write_trailer` (lines 367-381): CRC32 then ISIZE
(`m_usize mod 2^32`), both little-endian. -/
def writeTrailer (snk : Sink) (s : WState) : Int × WState :=
  let footer := packInt32 (s.ucrc32 % 2 ^ 32) ++ packInt32 (s.usize % 2 ^ 32)
  let (okb, s) := fwriteW snk s footer
  if okb then (0, { s with zoffset := s.zoffset + 8 })
  else (1, { s with error := some "error writing footer" })

/-- The `"MZ"` extra subfield (`extra_mzgf`): identifier, LEN = 1 (u16
little-endian), version byte. -/
def extra_mzgf : List Byte := [77, 90, 1, 0, MZGF_VERSION]

/-- The main loop of `MZGFileWriter::deflate` (lines 240-258): read up
to `MZGF_BLOCK_SIZE` bytes (`fread` on a regular file returns
`min(requested, remaining)`), push a block index entry at the CURRENT
`(m_zoffset, m_uoffset)`, advance `m_uoffset`, flush, and continue
while `!feof(src)` — i.e. while the read came back full.  Note that an
input of length an exact multiple of `MZGF_BLOCK_SIZE` (including 0)
ends with an extra zero-length iteration, because `fread` only raises
the EOF flag once a read comes back short. -/
def deflateLoop (env : DeflateEnv σ) (snk : Sink) (B : List Byte) (es : σ)
    (s : WState) : Int × σ × WState :=
  let chunk := B.take MZGF_BLOCK_SIZE
  let s := { s with bindex := s.bindex ++ [Bindex.mk s.zoffset s.uoffset] }
  let s := { s with uoffset := s.uoffset + chunk.length }
  let r := flushW env snk chunk es s
  if r.1 ≠ 0 then r
  else if B.length < MZGF_BLOCK_SIZE then (0, r.2.1, r.2.2)
  else deflateLoop env snk (B.drop MZGF_BLOCK_SIZE) r.2.1 r.2.2
termination_by B.length
decreasing_by simp only [List.length_drop]; unfold MZGF_BLOCK_SIZE at *; omega

/-- Grouping of index entries into `"BI"` members (`_write_bindex`
lines 393-417): entries are packed 16 bytes each after a 12-byte
prologue; a member is emitted when the next entry would not fit below
the `0xFFFF` extra-field cap (`offset + 16 >= 65535`) or at the last
entry.  `cur` is the group accumulated so far. -/
def bindexGroupsAux (cur : List Bindex) : List Bindex → List (List Bindex)
  | [] => []
  | e :: rest =>
    let cur := cur ++ [e]
    if 12 + 16 * cur.length + 16 ≥ 65535 ∨ rest = [] then
      cur :: bindexGroupsAux [] rest
    else
      bindexGroupsAux cur rest

/-- The groups of block index entries written as separate `"BI"` members. -/
def bindexGroups (entries : List Bindex) : List (List Bindex) :=
  bindexGroupsAux [] entries

/-- The `"BI"` extra subfield bytes of one index member: identifier
`'B' 'I'`, LEN = `offset - 4` (u16), next-member offset (u64), then the
`(zoffset, uoffset)` pairs, each value `uint64_t` little-endian. -/
def biExtra (group : List Bindex) (next : Nat) : List Byte :=
  [66, 73] ++ packInt16 ((12 + 16 * group.length - 4) % 2 ^ 16)
    ++ packInt64 (next % 2 ^ 64)
    ++ group.flatMap (fun e =>
        packInt64 (e.zoffset % 2 ^ 64) ++ packInt64 (e.uoffset % 2 ^ 64))

/-- Emission of the grouped index members (`_write_bindex` lines
402-416): for each group, compute `next` (0 for the last group, else
the predicted start of the next index member
`m_zoffset + sizeof(gzheader) + offset + 2 + 8`), then write header,
empty payload and zero trailer, aborting on the first nonzero status. -/
def writeBindexLoop (env : DeflateEnv σ) (snk : Sink) :
    List (List Bindex) → WState → Int × WState
  | [], s => (0, s)
  | g :: gs, s =>
    let offset := 12 + 16 * g.length
    let next := if gs = [] then 0 else s.zoffset + 12 + offset + 2 + 8
    let r := writeHeader snk (biExtra g next) s
    if r.1 ≠ 0 then r
    else
      let r := writeEmpty env snk r.2
      if r.1 ≠ 0 then r
      else
        let r := writeTrailer snk r.2
        if r.1 ≠ 0 then r
        else writeBindexLoop env snk gs r.2

/-- `MZGFileWriter::_write_bindex` (lines 388-420): records
`m_bindex_offset = m_zoffset` (the compressed offset where the first
index member starts) and emits the index members. -/
def writeBindex (env : DeflateEnv σ) (snk : Sink) (s : WState) : Int × WState :=
  let s := { s with bindexOffset := s.zoffset }
  writeBindexLoop env snk (bindexGroups s.bindex) s

/-- The `"BO"` extra subfield bytes (`extra_eof` with `_write_eof`
lines 432-433): identifier `'B' 'O'`, LEN = 16, uncompressed file size
(`m_uoffset`), offset of the first index member (`m_bindex_offset`). -/
def boExtra (ufilesize bindexOffset : Nat) : List Byte :=
  [66, 79] ++ packInt16 16 ++ packInt64 (ufilesize % 2 ^ 64)
    ++ packInt64 (bindexOffset % 2 ^ 64)

/-- `MZGFileWriter::_write_eof` (lines 426-440): the fixed EOF member
carrying the `"BO"` subfield, empty payload and zero trailer. -/
def writeEof (env : DeflateEnv σ) (snk : Sink) (s : WState) : Int × WState :=
  let r := writeHeader snk (boExtra s.uoffset s.bindexOffset) s
  if r.1 ≠ 0 then r
  else
    let r := writeEmpty env snk r.2
    if r.1 ≠ 0 then r
    else writeTrailer snk r.2

/-- Construction-time data of `MZGFileWriter`: the constructor (lines
202-205) sets only `m_mtime` and `m_bindex_offset = 0` (and the
`std::vector` member starts empty); the remaining data members hold
indeterminate values until `deflate` initializes them.  These junk
values are the only run-to-run-varying inputs besides `mtime`. -/
structure WJunk where
  uoffset : Nat
  usize : Nat
  ucrc32 : Nat
  zoffset : Nat

/-- `MZGFileWriter::deflate` (lines 211-266): initialize the engine and
the cursors, write the opening header with the `"MZ"` subfield, run the
block loop, then trailer, index members and EOF member, aborting on the
first nonzero status.  `now` is the `time(NULL)` value captured by the
constructor. -/
def deflateRun (env : DeflateEnv σ) (snk : Sink) (now : Nat) (j : WJunk)
    (B : List Byte) : Int × WState :=
  let s : WState :=
    { mtime := now, uoffset := j.uoffset, usize := j.usize,
      ucrc32 := j.ucrc32, zoffset := j.zoffset, bindex := [],
      bindexOffset := 0, out := [], wcount := 0, error := none }
  let s := { s with uoffset := 0, usize := 0, ucrc32 := env.crc0, zoffset := 0 }
  let r := writeHeader snk extra_mzgf s
  if r.1 ≠ 0 then r
  else
    let r := deflateLoop env snk B env.dinit r.2
    if r.1 ≠ 0 then (r.1, r.2.2)
    else
      let r := writeTrailer snk r.2.2
      if r.1 ≠ 0 then r
      else
        let r := writeBindex env snk r.2
        if r.1 ≠ 0 then r
        else writeEof env snk r.2

/-! ## Reader model (`MZGFileReader`, `MZGFile.cpp` lines 446-867)

The INFLATE engine is a parameter: one `istep` call models one
`_read_block` interaction with zlib — the optional `fread` refill of
the compressed buffer (`zread` bytes were read from the file when the
input buffer was empty, 0 otherwise) followed by `inflate(&m_zs,
Z_BLOCK)`, producing one decompressed segment (at most
`MZGF_BLOCK_SIZE` bytes, up to the next DEFLATE block boundary) and the
combined end-of-stream condition `Z_STREAM_END || (feof && avail_in <= 8)`. -/

/-- External INFLATE engine: state `ι` bundles the open file's
compressed bytes, the stdio cursor and the zlib stream. -/
structure InflEnv (ι : Type) where
  istep : ι → List Byte × Bool × Nat × ι

/-- Reader state: the `MZGFileReader` data members.  `ublock` holds the
current decompressed block (`m_blen` valid bytes), `boffset` the
consumed offset into it. -/
structure RState (ι : Type) where
  version : Nat
  mtime : Nat
  isEOF : Bool
  ufilesize : Int
  zoffset : Nat
  uoffset : Nat
  blen : Nat
  boffset : Nat
  ublock : List Byte
  bindex : List Bindex
  bindexOffset : Nat
  error : Option String
  istate : ι

/-- `MZGFileReader::_read_block` (lines 817-867): refill/inflate one
segment into `m_ublock`, set `m_blen`, advance `m_uoffset` by the bytes
produced and `m_zoffset` by the bytes `fread` pulled from the file, and
fold the end-of-stream condition into the `m_isEOF` latch.  `m_boffset`
is NOT touched.  Returns `m_blen`. -/
def readBlock (env : InflEnv ι) (s : RState ι) : Int × RState ι :=
  let (seg, endf, zread, i) := env.istep s.istate
  let s := { s with zoffset := s.zoffset + zread, ublock := seg,
                    blen := seg.length, uoffset := s.uoffset + seg.length,
                    isEOF := s.isEOF || endf, istate := i }
  ((seg.length : Int), s)

/-- The copy step at the bottom of the `read` loop (lines 547-555):
copy `have = min(size - copied, avail)` bytes out of
`m_ublock + m_boffset`, advance `m_boffset`, and clear the block buffer
once it is fully consumed (`m_boffset >= m_blen`). -/
def copyStep (size copied : Nat) (acc : List Byte) (s : RState ι) :
    Nat × List Byte × RState ι :=
  let avail := s.blen - s.boffset
  let hav := min (size - copied) avail
  let acc := acc ++ (s.ublock.drop s.boffset).take hav
  let s := { s with boffset := s.boffset + hav }
  let s := if s.blen ≤ s.boffset then { s with blen := 0, boffset := 0 } else s
  (copied + hav, acc, s)

/-- The `while (copied < size)` loop of `MZGFileReader::read` (lines
532-556).  When the block buffer is drained (`avail <= 0`) it calls
`_read_block`; an empty block breaks out of the loop; a block shorter
than a pending seek skip (`m_boffset > m_blen`) consumes the block and
continues.  One unit of fuel covers one loop iteration; every reachable
iteration either copies a byte or shrinks `boffset`, so any
`fuel ≥ size + boffset + 2` is enough. -/
def readLoop (env : InflEnv ι) :
    Nat → Nat → Nat → List Byte → RState ι → Int × List Byte × RState ι
  | 0, _, copied, acc, s => ((copied : Int), acc, s)
  | fuel + 1, size, copied, acc, s =>
    if size ≤ copied then ((copied : Int), acc, s)
    else if s.blen ≤ s.boffset then
      let r := readBlock env s
      let s := r.2
      if s.blen = 0 then ((copied : Int), acc, s)
      else if s.blen < s.boffset then
        readLoop env fuel size copied acc
          { s with boffset := s.boffset - s.blen, blen := 0 }
      else
        let c := copyStep size copied acc s
        readLoop env fuel size c.1 c.2.1 c.2.2
    else
      let c := copyStep size copied acc s
      readLoop env fuel size c.1 c.2.1 c.2.2

/-- `MZGFileReader::read` (lines 520-559): if the EOF latch is already
set the call fails IMMEDIATELY with -1 and the error string "read past
end of file", even when undelivered decompressed bytes remain in the
block buffer; otherwise it runs the copy loop and returns the number of
bytes copied. -/
def read (env : InflEnv ι) (fuel size : Nat) (s : RState ι) :
    Int × List Byte × RState ι :=
  if s.isEOF then (-1, [], { s with error := some "read past end of file" })
  else readLoop env fuel size 0 [] s

/-- Reading a file to exhaustion: repeatedly call `read` with request
size `size`, concatenating the returned bytes, until a call returns 0
or -1. -/
def readAll (env : InflEnv ι) :
    Nat → Nat → Nat → RState ι → List Byte
  | 0, _, _, _ => []
  | ofuel + 1, ifuel, size, s =>
    let r := read env ifuel size s
    if r.1 ≤ 0 then r.2.1
    else r.2.1 ++ readAll env ofuel ifuel size r.2.2

/-- `MZGFileReader::vtell` (line 561): returns `m_zoffset`, as is. -/
def vtell (s : RState ι) : Int := (s.zoffset : Int)

/-- Indexing of `m_bindex` (`std::vector::operator[]`); out-of-range
access is undefined behaviour in C and defaulted here, and is shown
unreachable under the claims' hypotheses. -/
def entryD (bi : List Bindex) (i : Nat) : Bindex :=
  (bi.get? i).getD (Bindex.mk 0 0)

/-- The binary-search loop of `MZGFileReader::useek` (lines 608-620):
`mid = (lower+upper)/2`; move `upper` down to `mid` when
`uoffset < m_bindex[mid].uoffset`, else move `lower` up to `mid+1`.
Each iteration shrinks `upper - lower` by at least one, so the C
`while` loop runs at most `upper - lower` times; `fuel` bounds the
iterations and is instantiated with a provably sufficient amount. -/
def bsLoopF (bi : List Bindex) (u : Nat) : Nat → Nat → Nat → Nat
  | 0, lower, _ => lower
  | fuel + 1, lower, upper =>
    if lower < upper then
      if u < (entryD bi ((lower + upper) / 2)).uoffset then
        bsLoopF bi u fuel lower ((lower + upper) / 2)
      else
        bsLoopF bi u fuel ((lower + upper) / 2 + 1) upper
    else lower

/-- The binary-search loop run to completion (the fuel covers every
iteration the C loop can perform). -/
def bsLoop (bi : List Bindex) (u lower upper : Nat) : Nat :=
  bsLoopF bi u (upper - lower) lower upper

/-- The index selection of `useek`: run the loop over
`[0, m_bindex.size()-1]`, then apply the unchecked fall-through
correction `if (uoffset < m_bindex[lower].uoffset) lower--` (line 622;
the decrement below index 0 — undefined behaviour in the source — is
unreachable while the first entry's `uoffset` is `≤ uoffset`). -/
def useekSearch (bi : List Bindex) (u : Nat) : Nat :=
  let lower := bsLoop bi u 0 (bi.length - 1)
  if u < (entryD bi lower).uoffset then lower - 1 else lower

/-- `MZGFileReader::useek` (lines 597-654): select the index entry, set
`m_boffset = uoffset - entry.uoffset`; if the reader already sits at
that entry's `zoffset` return immediately, otherwise move `m_zoffset`,
record `m_uoffset`, mark the block buffer empty, clear the EOF latch,
re-initialize INFLATE (engine-internal, carried by `istate`) and seek
the underlying file.  The claims below assume the index is already
materialized (otherwise the source first re-reads it from the file). -/
def useek (u : Nat) (s : RState ι) : RState ι :=
  let idx := useekSearch s.bindex u
  let e := entryD s.bindex idx
  let s := { s with boffset := u - e.uoffset }
  if s.zoffset = e.zoffset then s
  else { s with zoffset := e.zoffset, uoffset := u, blen := 0, isEOF := false }

/-! ## Reader header parsing (`_read_header`, `_read_eof`)

These are modelled as pure functions of the bytes read from the file at
the relevant position. -/

/-- `MZGFileReader::_read_header` (lines 668-715) over the byte
sequence found at the current file position: read 12 header bytes
(short read: `MZGF_ERR_HEADER`), check ID1/ID2/CM (`MZGF_NOT_GZIP`),
extract MTIME (note `unpackInt32` reads 5 bytes starting at offset 4)
and XLEN; reject `MZGF_BAD_FORMAT` only when the FEXTRA flag is clear
AND XLEN is 0, or when XLEN exceeds the caller's buffer; then read the
XLEN extra bytes (short read: `MZGF_ERR_HEADER`).  Returns
`(mtime, extra bytes)`. -/
def readHeaderM (input : List Byte) (extralen : Nat) :
    Except Int (Nat × List Byte) :=
  if input.length < 12 then .error MZGF_ERR_HEADER
  else if ¬(byteAt input 0 = 0x1f ∧ byteAt input 1 = 0x8b ∧ byteAt input 2 = 8)
  then .error MZGF_NOT_GZIP
  else
    let mtime := unpackInt32 (input.drop 4)
    let flag := byteAt input 3
    let xlen := unpackInt16 (input.drop 10)
    if flag &&& 0x04 = 0 ∧ xlen = 0 then .error MZGF_BAD_FORMAT
    else if extralen < xlen then .error MZGF_BAD_FORMAT
    else if (input.drop 12).length < xlen then .error MZGF_ERR_HEADER
    else .ok (mtime, (input.drop 12).take xlen)

/-- `MZGFileReader::_read_eof` (lines 776-812) over the final
`bsize = sizeof(gzheader) + sizeof(extra_eof) + 2 + 4 + 4 = 42` bytes
of the file: parse the member header, then check the subfield
identifier with the source's condition
`extra_eof[0] == 'B' || extra_eof[1] == 'O'` — a logical OR, so one
matching byte suffices — and on acceptance extract
`(m_ufilesize, m_bindex_offset)`; otherwise `MZGF_BAD_FORMAT`. -/
def readEofM (tailBytes : List Byte) : Except Int (Nat × Nat) :=
  match readHeaderM tailBytes 20 with
  | .error e => .error e
  | .ok (_, extra) =>
    if byteAt extra 0 = 66 ∨ byteAt extra 1 = 79 then
      .ok (unpackInt64 (extra.drop 4), unpackInt64 (extra.drop 12))
    else .error MZGF_BAD_FORMAT

/-! ## Concrete instances used to evaluate the model

These instantiate the external-collaborator parameters at specific
small values, mirroring what zlib does on the corresponding concrete
files. -/

/-- Queue-driven INFLATE engine: the state is the list of remaining
`(segment, stream-end)` answers; once exhausted it keeps answering
"no output, stream end", as zlib's `inflate` does after
`Z_STREAM_END`. -/
def listIstep : List (List Byte × Bool) →
    List Byte × Bool × Nat × List (List Byte × Bool)
  | [] => ([], true, 0, [])
  | p :: rest => (p.1, p.2, 0, rest)

/-- The queue-driven INFLATE engine as an `InflEnv`. -/
def listEnv : InflEnv (List (List Byte × Bool)) := InflEnv.mk listIstep

/-- Reader state just after `open` on the compressed file of the
two-byte input `[7, 9]`: for so short an input the writer emits a
single final DEFLATE block, so the first `inflate(Z_BLOCK)` call
produces both bytes AND reports `Z_STREAM_END`. -/
def c1State : RState (List (List Byte × Bool)) :=
  { version := 1, mtime := 0, isEOF := false, ufilesize := 2, zoffset := 17,
    uoffset := 0, blen := 0, boffset := 0, ublock := [],
    bindex := [Bindex.mk 17 0], bindexOffset := 27, error := none,
    istate := [([7, 9], true)] }

/-- Reader state with a materialized two-entry index (a file of 65281
or more uncompressed bytes): entries at `(zoffset, uoffset)` values
`(17, 0)` and `(100, 65280)`. -/
def seekState : RState Unit :=
  { version := 1, mtime := 0, isEOF := false, ufilesize := 70000,
    zoffset := 17, uoffset := 0, blen := 0, boffset := 0, ublock := [],
    bindex := [Bindex.mk 17 0, Bindex.mk 100 65280], bindexOffset := 200,
    error := none, istate := () }

/-- The final 42 bytes of a compressed file whose EOF member carries
`ufilesize = 100` and `first_bindex_offset = 25`, with the `"BO"`
subfield identifier corrupted to `"BX"` (`'B' = 66`, `'X' = 88`). -/
def eofTailBX : List Byte :=
  headerBytes 0 20 ++ [66, 88] ++ packInt16 16 ++ packInt64 100
    ++ packInt64 25 ++ [0x03, 0x00] ++ packInt32 0 ++ packInt32 0

/-- A destination on which every `fwrite` fails (short write). -/
def failSink : Sink := Sink.mk (fun _ => false)

/-- A concrete stand-in DEFLATE engine (echoes its input; the claims
settled with it do not depend on the compressed bytes). -/
def copyEnv : DeflateEnv Unit :=
  { dinit := (), dstep := fun es chunk _ => (chunk, es), crc0 := 0,
    crcUpd := fun c _ => c }

/-- Concrete construction-time junk values. -/
def j0 : WJunk := { uoffset := 0, usize := 0, ucrc32 := 0, zoffset := 0 }

/-- A concrete writer state as of the first `_write_header` call. -/
def w0 : WState :=
  { mtime := 0, uoffset := 0, usize := 0, ucrc32 := 0, zoffset := 0,
    bindex := [], bindexOffset := 0, out := [], wcount := 0, error := none }

/-! ## Helper lemmas -/

/-- Disjoint bitwise or is addition: `a ||| b <<< k = a + b * 2 ^ k`
whenever `a` fits below bit `k`. -/
theorem lor_shiftLeft_eq_add (a b k : Nat) (h : a < 2 ^ k) :
    a ||| b <<< k = a + b * 2 ^ k := by
  rw [Nat.shiftLeft_eq, Nat.lor_comm, mul_comm, ← Nat.mul_add_lt_is_or h b,
    Nat.add_comm]

theorem byteAt_lt (buffer : List Nat) (i : Nat) : byteAt buffer i < 256 :=
  Nat.mod_lt _ (by omega)

theorem unpackInt16_packInt16 (v : Nat) (h : v < 2 ^ 16) :
    unpackInt16 (packInt16 v) = v := by
  simp only [unpackInt16, packInt16, byteAt, List.getD_cons_zero,
    List.getD_cons_succ]
  rw [lor_shiftLeft_eq_add _ _ _ (by omega)]
  simp only [Nat.shiftRight_eq_div_pow]
  omega

theorem unpackInt32_packInt32 (v junk : Nat) (h : v < 2 ^ 32) :
    unpackInt32 (packInt32 v ++ [junk]) = v := by
  simp only [unpackInt32, packInt32, byteAt, List.cons_append, List.nil_append,
    List.getD_cons_zero, List.getD_cons_succ]
  rw [lor_shiftLeft_eq_add _ _ 8 (by omega)]
  rw [lor_shiftLeft_eq_add _ _ 16 (by omega)]
  rw [lor_shiftLeft_eq_add _ _ 24 (by omega)]
  rw [lor_shiftLeft_eq_add _ _ 32 (by omega)]
  simp only [Nat.shiftRight_eq_div_pow]
  omega

theorem unpackInt64_packInt64 (v : Nat) (h : v < 2 ^ 64) :
    unpackInt64 (packInt64 v) = v := by
  simp only [unpackInt64, packInt64, byteAt, List.getD_cons_zero,
    List.getD_cons_succ]
  rw [lor_shiftLeft_eq_add _ _ 8 (by omega)]
  rw [lor_shiftLeft_eq_add _ _ 16 (by omega)]
  rw [lor_shiftLeft_eq_add _ _ 24 (by omega)]
  rw [lor_shiftLeft_eq_add _ _ 32 (by omega)]
  rw [lor_shiftLeft_eq_add _ _ 40 (by omega)]
  rw [lor_shiftLeft_eq_add _ _ 48 (by omega)]
  rw [lor_shiftLeft_eq_add _ _ 56 (by omega)]
  simp only [Nat.shiftRight_eq_div_pow]
  omega

/-! ## Claim C10 -/

/-- C10: the little-endian byte packer round-trips: decoding the buffer
produced by the corresponding pack of an unsigned 16/32/64-bit value
yields the value back.  For `unpackInt32`, which reads a fifth byte,
the buffer is extended with an arbitrary readable byte; the `uint32_t`
truncation discards it. -/
theorem pack_unpack_roundtrip (v16 v32 v64 : Nat)
    (h16 : v16 < 2 ^ 16) (h32 : v32 < 2 ^ 32) (h64 : v64 < 2 ^ 64) :
    unpackInt16 (packInt16 v16) = v16 ∧
    (∀ junk : Nat, unpackInt32 (packInt32 v32 ++ [junk]) = v32) ∧
    unpackInt64 (packInt64 v64) = v64 :=
  ⟨unpackInt16_packInt16 v16 h16,
   fun junk => unpackInt32_packInt32 v32 junk h32,
   unpackInt64_packInt64 v64 h64⟩

/-- Witness for C10 at concrete values. -/
theorem pack_unpack_roundtrip_witness :
    unpackInt16 (packInt16 4660) = 4660 ∧
    unpackInt32 (packInt32 305419896 ++ [77]) = 305419896 ∧
    unpackInt64 (packInt64 (2 ^ 63 + 5)) = 2 ^ 63 + 5 := by
  have h := pack_unpack_roundtrip 4660 305419896 (2 ^ 63 + 5)
    (by norm_num) (by norm_num) (by norm_num)
  exact ⟨h.1, h.2.1 77, h.2.2⟩

/-! ## Claim C4 -/

/-- C4 (code evidence): with the EOF member's `"BO"` identifier
corrupted to `"BX"`, `_read_eof`'s check `extra_eof[0] == 'B' ||
extra_eof[1] == 'O'` still ACCEPTS the member because the first byte
alone matches, so `open` does not fail with `MZGF_BAD_FORMAT`: the
corrupted subfield is parsed as if valid. -/
theorem read_eof_accepts_BX_identifier :
    readEofM eofTailBX = Except.ok (100, 25) ∧
    readEofM eofTailBX ≠ Except.error MZGF_BAD_FORMAT := by
  have h1 : readEofM eofTailBX = Except.ok (100, 25) := rfl
  exact ⟨h1, by rw [h1]; exact fun h => Except.noConfusion h⟩

/-! ## Claim C2 -/

/-- C2 (code evidence): `vtell()` returns `m_zoffset` itself, NOT the
virtual offset `zoffset << 16 | boffset` — after `useek` to the index
entry `(z, u) = (100, 65280)` (which succeeds and sets `boffset = 0`),
`vtell` answers `100`, not `100 << 16 = 6553600`. -/
theorem vtell_returns_unshifted_zoffset :
    (useek 65280 seekState).boffset = 0 ∧
    vtell (useek 65280 seekState) = 100 ∧
    vtell (useek 65280 seekState) ≠ 100 * 2 ^ 16 := by
  refine ⟨rfl, rfl, ?_⟩
  decide

/-! ## Claim C5 -/

/-- C5 (counterexample): once the EOF latch is set, a further `read`
returns `-1` (code `read past end of file`), not `0` as the claim
states. -/
theorem read_after_latch_returns_minus_one :
    (read listEnv 8 1 { c1State with isEOF := true }).1 = -1 ∧
    (read listEnv 8 1 { c1State with isEOF := true }).1 ≠ 0 := by
  constructor
  · rfl
  · decide

/-- C5 (amended): after the EOF latch is set, every subsequent `read`
fails immediately with `-1`, sets the error string, copies nothing and
leaves the reader's position (and all other state) unchanged. -/
theorem read_after_latch_spec {ι : Type} (env : InflEnv ι) (fuel size : Nat)
    (s : RState ι) (h : s.isEOF = true) :
    read env fuel size s =
      (-1, [], { s with error := some "read past end of file" }) := by
  simp [read, h]

/-- Witness for the amended C5 at a concrete latched state. -/
theorem read_after_latch_spec_witness :
    read listEnv 8 4 { c1State with isEOF := true } =
      (-1, [], { { c1State with isEOF := true } with
                   error := some "read past end of file" }) :=
  read_after_latch_spec listEnv 8 4 { c1State with isEOF := true } rfl

/-! ## Claim C1 -/

/-- C1 (code evidence): the round trip is NOT the identity.  For the
two-byte input `B = [7, 9]`, the first `read` of size 1 inflates the
final block, which sets the EOF latch while one decompressed byte is
still buffered (`boffset = 1 < blen = 2`); the next `read` then fails
with `-1` instead of delivering the remaining byte, so reading to
exhaustion yields `[7]`, a strict prefix of `B`. -/
theorem read_eof_latch_drops_buffered_bytes :
    (read listEnv 8 1 c1State).1 = 1 ∧
    (read listEnv 8 1 c1State).2.1 = [7] ∧
    (read listEnv 8 1 c1State).2.2.isEOF = true ∧
    (read listEnv 8 1 c1State).2.2.boffset = 1 ∧
    (read listEnv 8 1 c1State).2.2.blen = 2 ∧
    (read listEnv 8 1 (read listEnv 8 1 c1State).2.2).1 = -1 ∧
    readAll listEnv 4 8 1 c1State = [7] ∧
    readAll listEnv 4 8 1 c1State ≠ [7, 9] := by
  refine ⟨rfl, rfl, rfl, rfl, rfl, rfl, rfl, ?_⟩
  decide

/-! ## Claim C7 -/

/-- C7 (code evidence): `_write_header` never surfaces a write failure:
its status is 0 for EVERY destination, extra field and state; on a
destination whose writes fail it merely records the error string while
still reporting success, so the failure does not reach `deflate`'s
status checks. -/
theorem write_header_ignores_write_failure :
    (∀ (snk : Sink) (extra : List Byte) (s : WState),
        (writeHeader snk extra s).1 = 0) ∧
    (writeHeader failSink extra_mzgf w0).2.error ≠ none ∧
    (writeHeader failSink extra_mzgf w0).2.out = [] := by
  refine ⟨?_, by decide, rfl⟩
  intro snk extra s
  unfold writeHeader
  split <;> rfl

/-! ## Claim C8 -/

/-- C8: `MZGFileWriter::deflate` is deterministic.  The only
run-to-run-varying inputs of a writer are the constructor's `time(NULL)`
capture (`now`) and the indeterminate values of the data members the
constructor leaves uninitialized (`j`, `j'`); `deflate` re-initializes
all of the latter before use, so two runs over byte-identical input
with the same `mtime` produce identical status and identical output
bytes — in fact identical final states — whatever the engine, the
destination and the uninitialized junk. -/
theorem deflate_deterministic {σ : Type} (env : DeflateEnv σ) (snk : Sink)
    (now : Nat) (j j' : WJunk) (B : List Byte) :
    deflateRun env snk now j B = deflateRun env snk now j' B := rfl

/-! ## Writer pipeline facts on a healthy destination

On a destination that accepts every write (`allOk`) the pipeline
helpers always succeed; these lemmas record their status and the state
components the later claims need. -/

theorem fwriteW_allOk (s : WState) (bytes : List Byte) :
    fwriteW allOk s bytes =
      (true, { s with wcount := s.wcount + 1, out := s.out ++ bytes }) := rfl

theorem flushW_allOk_fst {σ : Type} (env : DeflateEnv σ) (chunk : List Byte)
    (es : σ) (s : WState) : (flushW env allOk chunk es s).1 = 0 := rfl

theorem flushW_allOk_bindex {σ : Type} (env : DeflateEnv σ) (chunk : List Byte)
    (es : σ) (s : WState) : (flushW env allOk chunk es s).2.2.bindex = s.bindex := rfl

theorem flushW_allOk_uoffset {σ : Type} (env : DeflateEnv σ) (chunk : List Byte)
    (es : σ) (s : WState) : (flushW env allOk chunk es s).2.2.uoffset = s.uoffset := rfl

theorem flushW_allOk_bindexOffset {σ : Type} (env : DeflateEnv σ)
    (chunk : List Byte) (es : σ) (s : WState) :
    (flushW env allOk chunk es s).2.2.bindexOffset = s.bindexOffset := rfl

theorem flushW_allOk_mtime {σ : Type} (env : DeflateEnv σ) (chunk : List Byte)
    (es : σ) (s : WState) : (flushW env allOk chunk es s).2.2.mtime = s.mtime := rfl

theorem flushW_allOk_zoffset {σ : Type} (env : DeflateEnv σ) (chunk : List Byte)
    (es : σ) (s : WState) : s.zoffset ≤ (flushW env allOk chunk es s).2.2.zoffset :=
  Nat.le_add_right _ _

/-- One unfolding of the writer loop on a healthy destination: the
flush status is 0, so the loop either stops after a short (final) read
or continues on the remaining input. -/
theorem deflateLoop_allOk_step {σ : Type} (env : DeflateEnv σ) (B : List Byte)
    (es : σ) (s : WState) :
    deflateLoop env allOk B es s =
      (let chunk := B.take MZGF_BLOCK_SIZE
       let s1 := { s with bindex := s.bindex ++ [Bindex.mk s.zoffset s.uoffset],
                          uoffset := s.uoffset + chunk.length }
       let r := flushW env allOk chunk es s1
       if B.length < MZGF_BLOCK_SIZE then (0, r.2.1, r.2.2)
       else deflateLoop env allOk (B.drop MZGF_BLOCK_SIZE) r.2.1 r.2.2) := by
  rw [deflateLoop]
  rfl

/-- One iteration of the writer loop on a healthy destination when the
read came back short (the final iteration: `fread` returned fewer than
`MZGF_BLOCK_SIZE` bytes, so `feof` is set and the loop exits after this
flush). -/
theorem deflateLoop_allOk_short {σ : Type} (env : DeflateEnv σ) (B : List Byte)
    (es : σ) (s : WState) (hlt : B.length < MZGF_BLOCK_SIZE) :
    (deflateLoop env allOk B es s).1 = 0 ∧
    (deflateLoop env allOk B es s).2.2.bindex.length
      = s.bindex.length + B.length / MZGF_BLOCK_SIZE + 1 ∧
    (deflateLoop env allOk B es s).2.2.uoffset = s.uoffset + B.length ∧
    s.zoffset ≤ (deflateLoop env allOk B es s).2.2.zoffset ∧
    (deflateLoop env allOk B es s).2.2.bindexOffset = s.bindexOffset ∧
    (deflateLoop env allOk B es s).2.2.mtime = s.mtime := by
  rw [deflateLoop_allOk_step, if_pos hlt]
  have htake : (B.take MZGF_BLOCK_SIZE).length = B.length := by
    simp [List.length_take]; omega
  refine ⟨rfl, ?_, ?_, ?_, ?_, ?_⟩
  · simp only [flushW_allOk_bindex, Nat.div_eq_of_lt hlt]
    simp [List.length_append]
  · simp only [flushW_allOk_uoffset]
    simp [htake]
  · exact flushW_allOk_zoffset env _ es _
  · simp only [flushW_allOk_bindexOffset]
  · simp only [flushW_allOk_mtime]

/-- The writer loop on a healthy destination: returns status 0, pushes
exactly `B.length / MZGF_BLOCK_SIZE + 1` index entries (one per `fread`
iteration: one per full block plus the final short or empty read),
advances `m_uoffset` by exactly the input length, never decreases
`m_zoffset`, and leaves `m_bindex_offset` and `m_mtime` alone. -/
theorem deflateLoop_allOk {σ : Type} (env : DeflateEnv σ) :
    ∀ (n : Nat) (B : List Byte), B.length ≤ n → ∀ (es : σ) (s : WState),
      (deflateLoop env allOk B es s).1 = 0 ∧
      (deflateLoop env allOk B es s).2.2.bindex.length
        = s.bindex.length + B.length / MZGF_BLOCK_SIZE + 1 ∧
      (deflateLoop env allOk B es s).2.2.uoffset = s.uoffset + B.length ∧
      s.zoffset ≤ (deflateLoop env allOk B es s).2.2.zoffset ∧
      (deflateLoop env allOk B es s).2.2.bindexOffset = s.bindexOffset ∧
      (deflateLoop env allOk B es s).2.2.mtime = s.mtime := by
  intro n
  induction n with
  | zero =>
    intro B hB es s
    have hB0 : B = [] := List.eq_nil_of_length_eq_zero (Nat.le_zero.mp hB)
    subst hB0
    exact deflateLoop_allOk_short env [] es s (by decide)
  | succ n ih =>
    intro B hB es s
    by_cases hlt : B.length < MZGF_BLOCK_SIZE
    · exact deflateLoop_allOk_short env B es s hlt
    · rw [deflateLoop_allOk_step, if_neg hlt]
      have hlen : (B.drop MZGF_BLOCK_SIZE).length ≤ n := by
        simp only [List.length_drop]
        unfold MZGF_BLOCK_SIZE at hlt ⊢
        omega
      have hrec := ih (B.drop MZGF_BLOCK_SIZE) hlen
        (flushW env allOk (B.take MZGF_BLOCK_SIZE) es
          { s with bindex := s.bindex ++ [Bindex.mk s.zoffset s.uoffset],
                   uoffset := s.uoffset + (B.take MZGF_BLOCK_SIZE).length }).2.1
        (flushW env allOk (B.take MZGF_BLOCK_SIZE) es
          { s with bindex := s.bindex ++ [Bindex.mk s.zoffset s.uoffset],
                   uoffset := s.uoffset + (B.take MZGF_BLOCK_SIZE).length }).2.2
      obtain ⟨h1, h2, h3, h4, h5, h6⟩ := hrec
      have htake : (B.take MZGF_BLOCK_SIZE).length = MZGF_BLOCK_SIZE := by
        simp [List.length_take]; omega
      have hdrop : (B.drop MZGF_BLOCK_SIZE).length = B.length - MZGF_BLOCK_SIZE := by
        simp [List.length_drop]
      refine ⟨h1, ?_, ?_, ?_, ?_, ?_⟩
      · rw [h2, flushW_allOk_bindex]
        simp only [List.length_append, List.length_cons, List.length_nil, hdrop]
        unfold MZGF_BLOCK_SIZE at hlt ⊢
        omega
      · rw [h3, flushW_allOk_uoffset]
        simp only [htake, hdrop]
        unfold MZGF_BLOCK_SIZE at hlt ⊢
        omega
      · exact le_trans (flushW_allOk_zoffset env _ es _) h4
      · rw [h5, flushW_allOk_bindexOffset]
      · rw [h6, flushW_allOk_mtime]

theorem writeHeader_allOk (extra : List Byte) (s : WState) :
    (writeHeader allOk extra s).1 = 0 ∧
    (writeHeader allOk extra s).2.bindex = s.bindex ∧
    (writeHeader allOk extra s).2.bindexOffset = s.bindexOffset ∧
    (writeHeader allOk extra s).2.uoffset = s.uoffset ∧
    (writeHeader allOk extra s).2.usize = s.usize ∧
    (writeHeader allOk extra s).2.ucrc32 = s.ucrc32 ∧
    (writeHeader allOk extra s).2.mtime = s.mtime ∧
    (writeHeader allOk extra s).2.zoffset = s.zoffset + 12 + extra.length := by
  unfold writeHeader
  by_cases h : extra.length ≠ 0
  · simp [h, fwriteW, allOk]
  · have h0 : extra.length = 0 := not_not.mp h
    simp [h, h0, fwriteW, allOk]

theorem writeEmpty_allOk {σ : Type} (env : DeflateEnv σ) (s : WState) :
    (writeEmpty env allOk s).1 = 0 ∧
    (writeEmpty env allOk s).2.bindex = s.bindex ∧
    (writeEmpty env allOk s).2.bindexOffset = s.bindexOffset ∧
    (writeEmpty env allOk s).2.uoffset = s.uoffset ∧
    (writeEmpty env allOk s).2.mtime = s.mtime ∧
    (writeEmpty env allOk s).2.zoffset = s.zoffset + 2 :=
  ⟨rfl, rfl, rfl, rfl, rfl, rfl⟩

theorem writeTrailer_allOk (s : WState) :
    (writeTrailer allOk s).1 = 0 ∧
    (writeTrailer allOk s).2.bindex = s.bindex ∧
    (writeTrailer allOk s).2.bindexOffset = s.bindexOffset ∧
    (writeTrailer allOk s).2.uoffset = s.uoffset ∧
    (writeTrailer allOk s).2.mtime = s.mtime ∧
    (writeTrailer allOk s).2.zoffset = s.zoffset + 8 :=
  ⟨rfl, rfl, rfl, rfl, rfl, rfl⟩

/-- The index-member emission loop on a healthy destination succeeds
and leaves `m_bindex`, `m_bindex_offset`, `m_uoffset` and `m_mtime`
untouched. -/
theorem writeBindexLoop_allOk {σ : Type} (env : DeflateEnv σ) :
    ∀ (gs : List (List Bindex)) (s : WState),
      (writeBindexLoop env allOk gs s).1 = 0 ∧
      (writeBindexLoop env allOk gs s).2.bindex = s.bindex ∧
      (writeBindexLoop env allOk gs s).2.bindexOffset = s.bindexOffset ∧
      (writeBindexLoop env allOk gs s).2.uoffset = s.uoffset ∧
      (writeBindexLoop env allOk gs s).2.mtime = s.mtime := by
  intro gs
  induction gs with
  | nil => intro s; exact ⟨rfl, rfl, rfl, rfl, rfl⟩
  | cons g gs ih =>
    intro s
    simp only [writeBindexLoop]
    set ex := biExtra g (if gs = [] then 0 else s.zoffset + 12 + (12 + 16 * g.length) + 2 + 8) with hex
    rw [if_neg (by simp [(writeHeader_allOk ex s).1])]
    set t1 := (writeHeader allOk ex s).2 with ht1
    rw [if_neg (by simp [(writeEmpty_allOk env t1).1])]
    set t2 := (writeEmpty env allOk t1).2 with ht2
    rw [if_neg (by simp [(writeTrailer_allOk t2).1])]
    set t3 := (writeTrailer allOk t2).2 with ht3
    have hr := ih t3
    have hh := writeHeader_allOk ex s
    have he := writeEmpty_allOk env t1
    have ht := writeTrailer_allOk t2
    refine ⟨hr.1, ?_, ?_, ?_, ?_⟩
    · rw [hr.2.1, ht3, ht.2.1, ht2, he.2.1, ht1, hh.2.1]
    · rw [hr.2.2.1, ht3, ht.2.2.1, ht2, he.2.2.1, ht1, hh.2.2.1]
    · rw [hr.2.2.2.1, ht3, ht.2.2.2.1, ht2, he.2.2.2.1, ht1, hh.2.2.2.1]
    · rw [hr.2.2.2.2, ht3, ht.2.2.2.2.1, ht2, he.2.2.2.2.1, ht1, hh.2.2.2.2.2.2.1]

theorem writeEof_allOk {σ : Type} (env : DeflateEnv σ) (s : WState) :
    (writeEof env allOk s).1 = 0 ∧
    (writeEof env allOk s).2.bindex = s.bindex ∧
    (writeEof env allOk s).2.bindexOffset = s.bindexOffset ∧
    (writeEof env allOk s).2.uoffset = s.uoffset := by
  unfold writeEof
  set ex := boExtra s.uoffset s.bindexOffset with hex
  rw [if_neg (by simp [(writeHeader_allOk ex s).1])]
  set t1 := (writeHeader allOk ex s).2 with ht1
  rw [if_neg (by simp [(writeEmpty_allOk env t1).1])]
  set t2 := (writeEmpty env allOk t1).2 with ht2
  have hh := writeHeader_allOk ex s
  have he := writeEmpty_allOk env t1
  have ht := writeTrailer_allOk t2
  refine ⟨ht.1, ?_, ?_, ?_⟩
  · rw [ht.2.1, ht2, he.2.1, ht1, hh.2.1]
  · rw [ht.2.2.1, ht2, he.2.2.1, ht1, hh.2.2.1]
  · rw [ht.2.2.2.1, ht2, he.2.2.2.1, ht1, hh.2.2.2.1]

/-- Grouping a nonempty entry list yields at least one `"BI"` member. -/
theorem bindexGroupsAux_ne_nil :
    ∀ (l : List Bindex) (cur : List Bindex), l ≠ [] →
      bindexGroupsAux cur l ≠ [] := by
  intro l
  induction l with
  | nil => intro cur h; exact absurd rfl h
  | cons e rest ih =>
    intro cur _
    unfold bindexGroupsAux
    dsimp only
    split
    · exact List.cons_ne_nil _ _
    · rename_i hcond
      refine ih (cur ++ [e]) ?_
      intro hr
      exact hcond (Or.inr hr)

/-- The full `deflate` pipeline on a healthy destination: status 0,
one index entry per `fread` iteration, `m_uoffset` (the `ufilesize`
stored in the `"BO"` subfield) equal to the input length, and
`m_bindex_offset` (the `first_bindex_offset` stored in the `"BO"`
subfield) at least 25 — the opening header (17 bytes) plus the data
member trailer (8 bytes) always precede the first index member. -/
theorem deflateRun_allOk_spec {σ : Type} (env : DeflateEnv σ) (now : Nat)
    (j : WJunk) (B : List Byte) :
    (deflateRun env allOk now j B).1 = 0 ∧
    (deflateRun env allOk now j B).2.bindex.length
      = B.length / MZGF_BLOCK_SIZE + 1 ∧
    (deflateRun env allOk now j B).2.uoffset = B.length ∧
    25 ≤ (deflateRun env allOk now j B).2.bindexOffset := by
  have hrun : deflateRun env allOk now j B =
      (let s0 : WState :=
        { mtime := now, uoffset := 0, usize := 0, ucrc32 := env.crc0,
          zoffset := 0, bindex := [], bindexOffset := 0, out := [],
          wcount := 0, error := none }
       let s1 := (writeHeader allOk extra_mzgf s0).2
       let s2 := (deflateLoop env allOk B env.dinit s1).2.2
       let s3 := (writeTrailer allOk s2).2
       let s4 := (writeBindex env allOk s3).2
       writeEof env allOk s4) := by
    unfold deflateRun
    rw [if_neg (by simp [(writeHeader_allOk extra_mzgf _).1])]
    rw [if_neg (by simp [(deflateLoop_allOk env B.length B (Nat.le_refl _)
      env.dinit _).1])]
    rw [if_neg (by simp [(writeTrailer_allOk _).1])]
    rw [if_neg (by
      unfold writeBindex
      simp [(writeBindexLoop_allOk env _ _).1])]
  rw [hrun]
  set s0 : WState :=
    { mtime := now, uoffset := 0, usize := 0, ucrc32 := env.crc0, zoffset := 0,
      bindex := [], bindexOffset := 0, out := [], wcount := 0,
      error := none } with hs0
  set s1 := (writeHeader allOk extra_mzgf s0).2 with hs1
  set s2 := (deflateLoop env allOk B env.dinit s1).2.2 with hs2
  set s3 := (writeTrailer allOk s2).2 with hs3
  set s4 := (writeBindex env allOk s3).2 with hs4
  have hh := writeHeader_allOk extra_mzgf s0
  have hloop := deflateLoop_allOk env B.length B (Nat.le_refl _) env.dinit s1
  have ht := writeTrailer_allOk s2
  have heof := writeEof_allOk env s4
  have hbl := writeBindexLoop_allOk env
    (bindexGroups { s3 with bindexOffset := s3.zoffset }.bindex)
    { s3 with bindexOffset := s3.zoffset }
  have hs4b : s4.bindex = s3.bindex := by
    rw [hs4]; unfold writeBindex; rw [hbl.2.1]
  have hs4o : s4.bindexOffset = s3.zoffset := by
    rw [hs4]; unfold writeBindex; rw [hbl.2.2.1]
  have hs4u : s4.uoffset = s3.uoffset := by
    rw [hs4]; unfold writeBindex; rw [hbl.2.2.2.1]
  have hz1 : s1.zoffset = 17 := by
    rw [hs1, hh.2.2.2.2.2.2.2, hs0]
    rfl
  refine ⟨heof.1, ?_, ?_, ?_⟩
  · rw [heof.2.1, hs4b, ht.2.1, hloop.2.1, hs1, hh.2.1, hs0]
    simp
  · rw [heof.2.2.2, hs4u, ht.2.2.2.1, hloop.2.2.1, hs1, hh.2.2.2.1, hs0]
    simp
  · rw [heof.2.2.1, hs4o, hs3, ht.2.2.2.2.2]
    have h1 := hloop.2.2.2.1
    rw [← hs2] at h1
    rw [hz1] at h1
    omega

/-! ## Claim C3 -/

/-- C3 (counterexample): for an input of exactly one full uncompressed
block (65280 bytes), the writer records TWO index entries, not one.
The `do {...} while (!feof(src))` loop only learns about end-of-input
when an `fread` comes back short, so after the full-block read it runs
one more iteration with a zero-byte read and pushes a second entry
`(z, 65280)` before flushing with `Z_FINISH`. -/
theorem full_block_input_records_two_entries :
    (deflateRun copyEnv allOk 0 j0 (List.replicate 65280 (0 : Byte))).2.bindex.length = 2 ∧
    (deflateRun copyEnv allOk 0 j0 (List.replicate 65280 (0 : Byte))).2.bindex.length ≠ 1 := by
  have h := (deflateRun_allOk_spec copyEnv 0 j0 (List.replicate 65280 (0 : Byte))).2.1
  rw [List.length_replicate] at h
  rw [h]
  constructor
  · decide
  · decide

/-- C3 (amended): the writer records exactly one block index entry per
`fread` iteration of its read loop, i.e. `⌊len/65280⌋ + 1` entries for
an input of `len` bytes — one per full block, plus one for the final
short read (which is a zero-byte read when `len` is a multiple of
65280, including one full block and the empty input); the `ufilesize`
recorded for the `"BO"` subfield (`m_uoffset`) is exactly the input
length. -/
theorem writer_index_entry_per_fread {σ : Type} (env : DeflateEnv σ)
    (now : Nat) (j : WJunk) (B : List Byte) :
    (deflateRun env allOk now j B).2.bindex.length
      = B.length / MZGF_BLOCK_SIZE + 1 ∧
    (deflateRun env allOk now j B).2.uoffset = B.length :=
  ⟨(deflateRun_allOk_spec env now j B).2.1,
   (deflateRun_allOk_spec env now j B).2.2.1⟩

/-! ## Claim C9 -/

/-- C9: for every input, including the empty one, the writer pushes at
least one block index entry, `_write_bindex` therefore emits at least
one `"BI"` index member (the grouping of a nonempty entry list is
nonempty), and the `first_bindex_offset` recorded for the `"BO"`
subfield (`m_bindex_offset`) is nonzero — at least 25, since the
17-byte opening header and the 8-byte data-member trailer always
precede the first index member. -/
theorem writer_always_emits_index {σ : Type} (env : DeflateEnv σ)
    (now : Nat) (j : WJunk) (B : List Byte) :
    1 ≤ (deflateRun env allOk now j B).2.bindex.length ∧
    bindexGroups ((deflateRun env allOk now j B).2.bindex) ≠ [] ∧
    0 < (deflateRun env allOk now j B).2.bindexOffset := by
  have h := deflateRun_allOk_spec env now j B
  refine ⟨by rw [h.2.1]; exact Nat.le_add_left 1 _, ?_, by omega⟩
  have hne : (deflateRun env allOk now j B).2.bindex ≠ [] := by
    intro hnil
    have := h.2.1
    rw [hnil] at this
    simp at this
  exact bindexGroupsAux_ne_nil _ [] hne

/-! ## Claim C6 -/

/-- Invariant preservation for the `useek` binary-search loop: on a
monotone index, starting from a window `[lower, upper]` whose outside
is already classified (`uoffset ≤ u` strictly below `lower`,
`u < uoffset` strictly above `upper`), the loop lands inside the window
with everything below the result classified `≤ u` and everything above
it classified `> u`. -/
theorem bsLoopF_spec (bi : List Bindex) (u : Nat)
    (mono : ∀ i k, i ≤ k → k < bi.length →
      (entryD bi i).uoffset ≤ (entryD bi k).uoffset) :
    ∀ (fuel lower upper : Nat), upper - lower ≤ fuel → lower ≤ upper →
      upper < bi.length →
      (∀ m, m < lower → (entryD bi m).uoffset ≤ u) →
      (∀ m, upper < m → m < bi.length → u < (entryD bi m).uoffset) →
      lower ≤ bsLoopF bi u fuel lower upper ∧
      bsLoopF bi u fuel lower upper ≤ upper ∧
      (∀ m, m < bsLoopF bi u fuel lower upper → (entryD bi m).uoffset ≤ u) ∧
      (∀ m, bsLoopF bi u fuel lower upper < m → m < bi.length →
        u < (entryD bi m).uoffset) := by
  intro fuel
  induction fuel with
  | zero =>
    intro lower upper hf hlu hub hlow hhigh
    have heq : lower = upper := by omega
    exact ⟨Nat.le_refl _, by simp only [bsLoopF]; omega,
      hlow, by simp only [bsLoopF]; subst heq; exact hhigh⟩
  | succ fuel ih =>
    intro lower upper hf hlu hub hlow hhigh
    simp only [bsLoopF]
    by_cases hlt : lower < upper
    · rw [if_pos hlt]
      by_cases hmid : u < (entryD bi ((lower + upper) / 2)).uoffset
      · rw [if_pos hmid]
        have hhigh2 : ∀ m, (lower + upper) / 2 < m → m < bi.length →
            u < (entryD bi m).uoffset := by
          intro m hm hmlen
          exact lt_of_lt_of_le hmid (mono _ _ (by omega) hmlen)
        have hr := ih lower ((lower + upper) / 2) (by omega) (by omega)
          (by omega) hlow hhigh2
        exact ⟨hr.1, le_trans hr.2.1 (by omega), hr.2.2.1, hr.2.2.2⟩
      · rw [if_neg hmid]
        have hmle : (entryD bi ((lower + upper) / 2)).uoffset ≤ u :=
          Nat.le_of_not_lt hmid
        have hlow2 : ∀ m, m < (lower + upper) / 2 + 1 →
            (entryD bi m).uoffset ≤ u := by
          intro m hm
          exact le_trans (mono m ((lower + upper) / 2) (by omega) (by omega)) hmle
        have hr := ih ((lower + upper) / 2 + 1) upper (by omega) (by omega)
          hub hlow2 hhigh
        exact ⟨le_trans (by omega) hr.1, hr.2.1, hr.2.2.1, hr.2.2.2⟩
    · rw [if_neg hlt]
      have heq : lower = upper := by omega
      exact ⟨Nat.le_refl _, by omega, hlow, by subst heq; exact hhigh⟩

/-- Correctness of the index selection of `useek` on a materialized
monotone index: the selected position is in range, its entry's
`uoffset` does not exceed the target, and it is the greatest such
position. -/
theorem useekSearch_spec (bi : List Bindex) (u : Nat) (hne : bi ≠ [])
    (mono : ∀ i k, i ≤ k → k < bi.length →
      (entryD bi i).uoffset ≤ (entryD bi k).uoffset)
    (h0 : (entryD bi 0).uoffset ≤ u) :
    useekSearch bi u < bi.length ∧
    (entryD bi (useekSearch bi u)).uoffset ≤ u ∧
    (∀ m, m < bi.length → (entryD bi m).uoffset ≤ u → m ≤ useekSearch bi u) := by
  have hlen : 1 ≤ bi.length := by
    cases bi with
    | nil => exact absurd rfl hne
    | cons a l => simp
  have hbs := bsLoopF_spec bi u mono (bi.length - 1 - 0) 0 (bi.length - 1)
    (Nat.le_refl _) (by omega) (by omega)
    (by intro m hm; omega)
    (by intro m hm hmlen; omega)
  unfold useekSearch bsLoop
  unfold bsLoop at hbs
  obtain ⟨hL1, hL2, hLlow, hLhigh⟩ := hbs
  by_cases hcase :
      u < (entryD bi (bsLoopF bi u (bi.length - 1 - 0) 0 (bi.length - 1))).uoffset
  · rw [if_pos hcase]
    set L := bsLoopF bi u (bi.length - 1 - 0) 0 (bi.length - 1) with hLdef
    have hL0 : L ≠ 0 := by
      intro hz
      rw [hz] at hcase
      omega
    refine ⟨by omega, hLlow (L - 1) (by omega), ?_⟩
    intro m hmlen hmle
    by_contra hgt
    have hmge : L ≤ m := by omega
    rcases Nat.eq_or_lt_of_le hmge with he | hl
    · rw [← he] at hmle; omega
    · exact absurd hmle (by
        have := hLhigh m hl hmlen
        omega)
  · rw [if_neg hcase]
    set L := bsLoopF bi u (bi.length - 1 - 0) 0 (bi.length - 1) with hLdef
    refine ⟨by omega, by omega, ?_⟩
    intro m hmlen hmle
    by_contra hgt
    have := hLhigh m (by omega) hmlen
    omega

/-- C6: on a non-empty materialized index (sorted strictly by
`uoffset`, first entry's `uoffset` not above the target — the writer's
index always starts at `uoffset = 0`, so this holds for every
nonnegative target), `useek(u)` selects the entry with the greatest
`uoffset ≤ u` (when `u` equals an entry's `uoffset`, that entry), sets
`boffset = u - entry.uoffset` and moves the compressed position to
`entry.zoffset`. -/
theorem useek_selects_greatest_entry {ι : Type} (s : RState ι) (u : Nat)
    (hne : s.bindex ≠ [])
    (hsorted : List.Pairwise (fun a b => a.uoffset < b.uoffset) s.bindex)
    (h0 : (entryD s.bindex 0).uoffset ≤ u) :
    useekSearch s.bindex u < s.bindex.length ∧
    (entryD s.bindex (useekSearch s.bindex u)).uoffset ≤ u ∧
    (∀ m, m < s.bindex.length → (entryD s.bindex m).uoffset ≤ u →
      m ≤ useekSearch s.bindex u) ∧
    (useek u s).boffset = u - (entryD s.bindex (useekSearch s.bindex u)).uoffset ∧
    (useek u s).zoffset = (entryD s.bindex (useekSearch s.bindex u)).zoffset := by
  have mono : ∀ i k, i ≤ k → k < s.bindex.length →
      (entryD s.bindex i).uoffset ≤ (entryD s.bindex k).uoffset := by
    intro i k hik hk
    rcases Nat.eq_or_lt_of_le hik with he | hl
    · rw [he]
    · have hi : i < s.bindex.length := lt_trans hl hk
      have hget := (List.pairwise_iff_get.mp hsorted) ⟨i, hi⟩ ⟨k, hk⟩ hl
      have hei : entryD s.bindex i = s.bindex.get ⟨i, hi⟩ := by
        unfold entryD
        rw [List.get?_eq_get hi]
        rfl
      have hek : entryD s.bindex k = s.bindex.get ⟨k, hk⟩ := by
        unfold entryD
        rw [List.get?_eq_get hk]
        rfl
      rw [hei, hek]
      exact Nat.le_of_lt hget
  have hsp := useekSearch_spec s.bindex u hne mono h0
  refine ⟨hsp.1, hsp.2.1, hsp.2.2, ?_, ?_⟩
  · unfold useek
    dsimp only
    split
    · rfl
    · rfl
  · unfold useek
    dsimp only
    split
    · rename_i h
      exact h
    · rfl

/-- Witness for C6 on the concrete two-entry index of `seekState` at
target 70000: entry 1 = `(100, 65280)` is selected, `boffset` becomes
4720 and the compressed position becomes 100. -/
theorem useek_selects_greatest_entry_witness :
    (useekSearch seekState.bindex 70000 < seekState.bindex.length ∧
      (entryD seekState.bindex (useekSearch seekState.bindex 70000)).uoffset ≤ 70000 ∧
      (∀ m, m < seekState.bindex.length →
        (entryD seekState.bindex m).uoffset ≤ 70000 →
        m ≤ useekSearch seekState.bindex 70000) ∧
      (useek 70000 seekState).boffset
        = 70000 - (entryD seekState.bindex (useekSearch seekState.bindex 70000)).uoffset ∧
      (useek 70000 seekState).zoffset
        = (entryD seekState.bindex (useekSearch seekState.bindex 70000)).zoffset) ∧
    useekSearch seekState.bindex 70000 = 1 ∧
    (useek 70000 seekState).boffset = 4720 ∧
    (useek 70000 seekState).zoffset = 100 :=
  ⟨useek_selects_greatest_entry seekState 70000 (by decide) (by decide) (by decide),
   rfl, rfl, rfl⟩
